import Mathlib

/-!
Shallow embedding of `makeIndex.js`: a one-shot CLI tool that recursively
scans a `docs` directory for matching files, natural-sorts the paths, and
writes a static HTML index.

Modelling conventions:
* JS strings are Lean `String` (a list of unicode scalar values); all the
  filenames in play are BMP text, where JS UTF-16 code-unit order and Lean
  code-point order coincide.
* JS numbers produced by the tokenizer are nonnegative integers from digit
  runs (modelled exactly as `Nat`, ignoring IEEE-754 rounding of runs longer
  than 15 digits, which no claim touches), the value 0 from whitespace-only
  runs, and the infinities from `Infinity`-shaped runs.
* Fallible steps of the entry point are driven by explicit fault flags in a
  `World` record; the pure computations are embedded directly.
-/

namespace MakeIndex

/-! ## Tokens produced by `isNaN(t) ? t.toLowerCase() : Number(t)` -/

/-- A token of the natural sort: a JS number (finite nonnegative integer,
or an infinity arising from an `Infinity`-shaped non-digit run) or a
lowercased string. -/
inductive Tok where
  | fin (n : Nat)
  | posInf
  | negInf
  | str (s : String)
deriving DecidableEq, Repr

/-- The `typeof x === 'number'` test on a token. -/
def Tok.isNumber : Tok → Bool
  | .str _ => false
  | _ => true

/-! ## Tokenization: `basename(name).match(/\d+|\D+/g)` then the map -/

/-- Maximal runs of digit characters and of non-digit characters, in order:
the tiling produced by matching `\d+|\D+` globally. -/
def runsOf : List Char → List (List Char)
  | [] => []
  | c :: cs =>
    match runsOf cs with
    | [] => [[c]]
    | [] :: rs => [c] :: [] :: rs
    | (d :: ds) :: rs =>
      if c.isDigit = d.isDigit then (c :: d :: ds) :: rs
      else [c] :: (d :: ds) :: rs

/-- Numeric value of a digit run, as JS `Number` parses it (leading zeros
are immaterial). -/
def digitsVal (cs : List Char) : Nat :=
  cs.foldl (fun a c => 10 * a + (c.toNat - 48)) 0

/-- JS whitespace characters recognized by `Number`/`trim` that can occur
in a non-digit run. -/
def jsWs (c : Char) : Bool :=
  c = ' ' ∨ c = '\t' ∨ c = '\n' ∨ c = '\r' ∨
  c = Char.ofNat 11 ∨ c = Char.ofNat 12 ∨ c = Char.ofNat 0xa0 ∨
  c = Char.ofNat 0xfeff

/-- Strip JS whitespace from both ends, as `ToNumber` does on strings. -/
def jsTrimWs (s : String) : String :=
  String.mk (((s.data.dropWhile jsWs).reverse.dropWhile jsWs).reverse)

/-- The JS `ToNumber` coercion restricted to the strings the tokenizer can
produce (all-digit runs and digit-free runs): `none` means NaN. Digit runs
parse to their value; a digit-free run is numeric exactly when it trims to
the empty string (value 0) or to an `Infinity` form. -/
def jsStrToNumber (t : String) : Option Tok :=
  if t.data ≠ [] ∧ t.data.all Char.isDigit then some (.fin (digitsVal t.data))
  else
    let u := jsTrimWs t
    if u = "" then some (.fin 0)
    else if u = "Infinity" ∨ u = "+Infinity" then some .posInf
    else if u = "-Infinity" then some .negInf
    else none

/-- JS `toLowerCase`, ASCII range (the only case JS and Lean agree on by
construction; no claim involves non-ASCII letters). -/
def jsToLowerCase (s : String) : String :=
  String.mk (s.data.map Char.toLower)

/-- The map `t => (isNaN(t) ? t.toLowerCase() : Number(t))` applied to one
regex match. -/
def jsMapToken (t : String) : Tok :=
  match jsStrToNumber t with
  | some tok => tok
  | none => .str (jsToLowerCase t)

/-- `path.basename`: the last nonempty `/`-separated component. -/
def splitOnChar (sep : Char) : List Char → List (List Char)
  | [] => [[]]
  | c :: cs =>
    match splitOnChar sep cs with
    | [] => if c = sep then [[], []] else [[c]]
    | h :: t => if c = sep then [] :: h :: t else (c :: h) :: t

/-- Last path component, as `path.basename` returns for the slash-free and
slash-separated names the walker produces. -/
def basename (p : String) : String :=
  String.mk (((splitOnChar '/' p.data).filter (· ≠ [])).getLastD [])

/-- Full tokenization of a base name:
`name.match(/\d+|\D+/g).map(t => (isNaN(t) ? t.toLowerCase() : Number(t)))`.
On the empty string the JS `match` returns `null` and the program would
throw; directory entries always have nonempty names, and the model returns
`[]` there. -/
def tokenize (s : String) : List Tok :=
  (runsOf s.data).map (fun r => jsMapToken (String.mk r))

/-! ## The sort comparator -/

/-- Sign-faithful model of the JS subtraction `x - y` the comparator
returns when both tokens are numbers; only ever consulted on unequal
numeric tokens (the code guards with `x !== y`), so the NaN case
`Infinity - Infinity` never arises. For finite values it is the exact
difference. -/
def jsNumSub : Tok → Tok → Int
  | .fin a, .fin b => (a : Int) - b
  | .negInf, _ => -1
  | _, .negInf => 1
  | .posInf, _ => 1
  | _, .posInf => -1
  | _, _ => 0

/-- Lexicographic strict order on scalar-value sequences: the JS `<` on
strings (first differing position decides; a proper prefix is smaller). -/
def lexLt : List Char → List Char → Bool
  | [], [] => false
  | [], _ :: _ => true
  | _ :: _, [] => false
  | c :: cs, d :: ds =>
    if c.toNat < d.toNat then true
    else if d.toNat < c.toNat then false
    else lexLt cs ds

/-- JS `<` on two strings. -/
def jsStrLt (a b : String) : Bool :=
  lexLt a.data b.data

/-- JS `<` on tokens in the branch where at least one side is a string:
two strings compare lexicographically by code unit; a number against a
kept-string token coerces the string to NaN, so the comparison is false. -/
def jsLtTok : Tok → Tok → Bool
  | .str a, .str b => jsStrLt a b
  | _, _ => false

/-- The comparator loop of `pdfObjs.sort`, on token sequences: missing
tokens (`undefined`) lose, equal tokens continue, unequal numbers return
their difference, and otherwise the JS relational test decides. -/
def natCmp : List Tok → List Tok → Int
  | [], [] => 0
  | [], _ :: _ => -1
  | _ :: _, [] => 1
  | x :: xs, y :: ys =>
    if x.isNumber && y.isNumber then
      if x ≠ y then jsNumSub x y else natCmp xs ys
    else if x ≠ y then (if jsLtTok x y then -1 else 1)
    else natCmp xs ys

/-! ## FileRecord and the sort -/

/-- The transient record `{ name, tokens }` built in `main`. -/
structure FileRecord where
  name : String
  tokens : List Tok
deriving DecidableEq, Repr

/-- Builds the record for one absolute path. -/
def mkRec (p : String) : FileRecord :=
  { name := p, tokens := tokenize (basename p) }

/-- Comparator on records, as passed to `Array.prototype.sort`. -/
def recCmp (a b : FileRecord) : Int :=
  natCmp a.tokens b.tokens

/-- The non-strict order induced by the comparator: `a` may stay before
`b` when `recCmp a b ≤ 0`. -/
def recLe (a b : FileRecord) : Prop :=
  recCmp a b ≤ 0

instance : DecidableRel recLe := fun a b =>
  inferInstanceAs (Decidable (recCmp a b ≤ 0))

/-- Stable insertion step: the inserted record passes elements it compares
greater than and stops before the first element it compares `≤ 0` to. -/
def orderedInsertCmp (r : FileRecord) : List FileRecord → List FileRecord
  | [] => [r]
  | s :: rest =>
    if recCmp r s ≤ 0 then r :: s :: rest
    else s :: orderedInsertCmp r rest

/-- A stable comparison sort. On inputs whose elements pairwise compare
consistently, ECMAScript fully determines the result of
`Array.prototype.sort` (sorted and stable), and this function computes
exactly that sequence; it is used below only on such inputs. Where the
comparator is inconsistent the language leaves the order
implementation-defined and the engine algorithm itself (`jsSort` below)
is the behavior. -/
def sortRecords (l : List FileRecord) : List FileRecord :=
  l.foldr orderedInsertCmp []

/-- Placeholder record for the in-range index accesses of the binary
search; never actually selected. -/
def dfltRec : FileRecord := { name := "", tokens := [] }

/-- Insertion of an element at a given index of a list. -/
def insertAt (n : Nat) (x : FileRecord) (l : List FileRecord) :
    List FileRecord :=
  l.take n ++ x :: l.drop n

/-- The binary search of TimSort binary insertion, exactly as the engine
of Node runs it: probe `mid = (left + right) / 2`, move `right` down when
the pivot compares below the probe, otherwise move `left` past it. The
fuel argument makes the recursion structural; `bisect` passes
`right - left`, which the search never exhausts. -/
def bisectFuel (pivot : FileRecord) (acc : List FileRecord) :
    Nat → Nat → Nat → Nat
  | 0, left, _ => left
  | fuel + 1, left, right =>
    if left < right then
      let mid := (left + right) / 2
      if recCmp pivot (acc.getD mid dfltRec) < 0 then
        bisectFuel pivot acc fuel left mid
      else bisectFuel pivot acc fuel (mid + 1) right
    else left

/-- Insertion position of a pivot in the prefix `[left, right)`. -/
def bisect (pivot : FileRecord) (acc : List FileRecord)
    (left right : Nat) : Nat :=
  bisectFuel pivot acc (right - left) left right

/-- Binary insertion of each remaining element into the growing sorted
prefix, as TimSort extends a too-short initial run. -/
def binInsertLoop : List FileRecord → List FileRecord → List FileRecord
  | acc, [] => acc
  | acc, x :: rest =>
    binInsertLoop (insertAt (bisect x acc 0 acc.length) x acc) rest

/-- Maximal nondescending continuation of a run: elements keep joining
while the comparator does not ask to swap them below their
predecessor. Returns the run (head included) and the remainder. -/
def ascRun (prev : FileRecord) :
    List FileRecord → List FileRecord × List FileRecord
  | [] => ([prev], [])
  | x :: rest =>
    if 0 ≤ recCmp x prev then
      let pr := ascRun x rest
      (prev :: pr.1, pr.2)
    else ([prev], x :: rest)

/-- Maximal strictly descending continuation of a run. -/
def descRun (prev : FileRecord) :
    List FileRecord → List FileRecord × List FileRecord
  | [] => ([prev], [])
  | x :: rest =>
    if recCmp x prev < 0 then
      let pr := descRun x rest
      (prev :: pr.1, pr.2)
    else ([prev], x :: rest)

/-- Model of `Array.prototype.sort` as the engine of Node (V8) runs it:
TimSort. `countRunAndMakeAscending` finds the initial run — strictly
descending runs are reversed — and, the minimal run length being the
whole array for fewer than 64 elements, every remaining element is added
by binary insertion; that is the complete algorithm for all short arrays,
and longer arrays only add run merges whose boundary placements obey the
same probe conditions. Where the comparator is inconsistent (mixed
number/text records) ECMAScript leaves the order implementation-defined,
so this engine-level model is the behavior of the program. -/
def jsSort : List FileRecord → List FileRecord
  | [] => []
  | [x] => [x]
  | a0 :: a1 :: rest =>
    if recCmp a1 a0 < 0 then
      let pr := descRun a1 rest
      binInsertLoop (a0 :: pr.1).reverse pr.2
    else
      let pr := ascRun a1 rest
      binInsertLoop (a0 :: pr.1) pr.2

/-- Adjacent nondescending pair: `v` may directly follow `u` without the
comparator requesting a swap. -/
def ascPair (u v : FileRecord) : Prop := 0 ≤ recCmp v u

/-- Adjacent strictly descending pair. -/
def descPair (u v : FileRecord) : Prop := recCmp v u < 0

instance : DecidableRel ascPair := fun a b =>
  inferInstanceAs (Decidable (0 ≤ recCmp b a))

/-- Executable subsequence test (greedy matching), used to decide
`List.Sublist` on concrete lists. -/
def subseqChk : List FileRecord → List FileRecord → Bool
  | [], _ => true
  | _ :: _, [] => false
  | a :: l1, b :: l2 =>
    if a = b then subseqChk l1 l2 else subseqChk (a :: l1) l2

/-! ## The directory walker -/

/-- A directory entry as `readdir(..., { withFileTypes: true })` reports
it: a directory with its children, a regular file, or another kind of
entry (symlink, socket, ...). -/
inductive FsEntry where
  | dir (name : String) (children : List FsEntry)
  | file (name : String)
  | other (name : String)

/-- The `entry.name` field. -/
def FsEntry.name : FsEntry → String
  | .dir n _ => n
  | .file n => n
  | .other n => n

/-- The `entry.isDirectory()` test. -/
def FsEntry.isDirectory : FsEntry → Bool
  | .dir _ _ => true
  | _ => false

/-- The `entry.isFile()` test (regular files only). -/
def FsEntry.isFile : FsEntry → Bool
  | .file _ => true
  | _ => false

/-- JS `name.endsWith(suf)`. -/
def jsEndsWith (s suf : String) : Bool :=
  suf.data.isSuffixOf s.data

/-- The matching condition of the source line
`entry.isFile() && entry.name.endsWith(".pdf") || entry.name.endsWith("jpg")`,
with the operator precedence JS gives it: the `isFile` guard binds only to
the `.pdf` branch. -/
def srcCond (e : FsEntry) : Bool :=
  (e.isFile && jsEndsWith e.name ".pdf") || jsEndsWith e.name "jpg"

/-- The predicate that, per the code, actually selects an entry: it must
not be a directory (directories take the recursion branch) and must pass
`srcCond`. -/
def keptCond (e : FsEntry) : Bool :=
  !e.isDirectory && srcCond e

mutual

/-- The loop body of `walkForPdfs` over the entries of one directory:
directories are recursed into; otherwise the matching condition
`entry.isFile() && name.endsWith(".pdf") || name.endsWith("jpg")` decides
inclusion (the precedence quirk of the source is kept verbatim). -/
def walkForPdfs (dir : String) : List FsEntry → List String
  | [] => []
  | e :: rest => walkEntry dir e ++ walkForPdfs dir rest

/-- Handling of a single entry inside the loop of `walkForPdfs`. -/
def walkEntry (dir : String) (e : FsEntry) : List String :=
  match e with
  | .dir n cs => walkForPdfs (dir ++ "/" ++ n) cs
  | _ => if srcCond e then [dir ++ "/" ++ e.name] else []

end

mutual

/-- Every entry anywhere under a directory, paired with its full path, in
traversal order (each entry precedes the entries of its subtree). Not part
of the program; used to state what set the walker returns. -/
def allEntries (dir : String) : List FsEntry → List (String × FsEntry)
  | [] => []
  | e :: rest => entryWithSub dir e ++ allEntries dir rest

/-- One entry with its full path, followed by its subtree. -/
def entryWithSub (dir : String) (e : FsEntry) : List (String × FsEntry) :=
  (dir ++ "/" ++ e.name, e) ::
    (match e with
     | .dir n cs => allEntries (dir ++ "/" ++ n) cs
     | _ => [])

end

/-! ## The HTML index generator -/

/-- Model constant for `process.cwd()`. -/
def cwdPath : String := "/cwd"

/-- `path.join(process.cwd(), "docs")`. -/
def docsDir : String := cwdPath ++ "/docs"

/-- Length of the common component run shared by two split paths. -/
def commonLen : List (List Char) → List (List Char) → Nat
  | a :: as, b :: bs => if a = b then commonLen as bs + 1 else 0
  | _, _ => 0

/-- Joins path components with `/`. -/
def joinSlash : List (List Char) → List Char
  | [] => []
  | [x] => x
  | x :: xs => x ++ '/' :: joinSlash xs

/-- `path.relative(f, t)` on already-resolved POSIX paths (the only inputs
the program produces): drop the common component run, then climb with
`..` and descend with the remaining target components. -/
def pathRelative (f t : String) : String :=
  let fs := (splitOnChar '/' f.data).filter (· ≠ [])
  let ts := (splitOnChar '/' t.data).filter (· ≠ [])
  let k := commonLen fs ts
  String.mk (joinSlash (List.replicate (fs.length - k) ['.', '.'] ++ ts.drop k))

/-- `path.relative(path.join(cwd, "docs"), absPath).split(path.sep).join("/")`:
on POSIX the final split-and-join on `/` reassembles the same string, and
is spelled out as in the source. -/
def relToDocs (absPath : String) : String :=
  String.mk (joinSlash (splitOnChar '/' (pathRelative docsDir absPath).data))

/-- Characters `encodeURI` leaves intact: ASCII alphanumerics,
`uriUnescaped` marks, `uriReserved`, and `#`. -/
def uriKeep (c : Char) : Bool :=
  c.isAlphanum ||
  c ∈ ['-', '_', '.', '!', '~', '*', '\'', '(', ')',
       ';', '/', '?', ':', '@', '&', '=', '+', '$', ',', '#']

/-- UTF-8 bytes of one scalar value (JS `encodeURI` percent-encodes the
UTF-8 encoding; lone surrogates cannot be represented by `Char`). -/
def utf8Bytes (c : Char) : List Nat :=
  let n := c.toNat
  if n < 0x80 then [n]
  else if n < 0x800 then [0xC0 + n / 0x40, 0x80 + n % 0x40]
  else if n < 0x10000 then
    [0xE0 + n / 0x1000, 0x80 + (n / 0x40) % 0x40, 0x80 + n % 0x40]
  else
    [0xF0 + n / 0x40000, 0x80 + (n / 0x1000) % 0x40,
     0x80 + (n / 0x40) % 0x40, 0x80 + n % 0x40]

/-- Uppercase hexadecimal digit. -/
def hexDigitChar (n : Nat) : Char :=
  if n < 10 then Char.ofNat (48 + n) else Char.ofNat (55 + n)

/-- Percent-escape of one byte. -/
def pctByte (b : Nat) : List Char :=
  ['%', hexDigitChar (b / 16), hexDigitChar (b % 16)]

/-- JS `encodeURI`. -/
def encodeURI (s : String) : String :=
  String.mk
    ((s.data.map fun c =>
        if uriKeep c then [c]
        else ((utf8Bytes c).map pctByte).foldr (· ++ ·) []).foldr (· ++ ·) [])

/-- One `<li>` entry of the generated list, exactly as the template line
in `generateHtmlIndex` renders it. -/
def renderItem (absPath : String) : String :=
  " <li><a href=\"" ++ encodeURI (relToDocs absPath) ++ "\">" ++
    relToDocs absPath ++ "</a></li>"

/-- The joined `listItems` string. -/
def listItemsOf (pdfPaths : List String) : String :=
  String.intercalate "\n" (pdfPaths.map renderItem)

/-- The hardcoded page title. -/
def htmlTitle : String := "Michael Basman Legacy Audio Cassette Booklets"

/-- Template text before the first `${title}`. -/
def htmlPartA : String :=
  "<!doctype html>\n<html lang=\"en\">\n<head>\n  <meta charset=\"utf-8\">\n  <meta name=\"viewport\" content=\"width=device-width, initial-scale=1\">\n  <title>"

/-- Template text between `${title}` and the second `${title}`. -/
def htmlPartB : String :=
  "</title>\n  <style>\n    body \x7b font-family: system-ui, -apple-system, \"Segoe UI\", Roboto, \"Helvetica Neue\", Arial; padding: 2rem; \x7d\n    h1 \x7b font-size: 1.5rem; \x7d\n    ul \x7b line-height: 1.6; \x7d\n  </style>\n</head>\n<body>\n  <h1>"

/-- Template text between the second `${title}` and `${listItems}`. -/
def htmlPartC : String :=
  "</h1>\n  <p>Index of audio chess CASSette booklets:</p>\n  <ul>\n"

/-- Template text after `${listItems}`. -/
def htmlPartD : String :=
  "\n  </ul>\n</body>\n</html>"

/-- The full document `generateHtmlIndex` writes to `docs/index.html`. -/
def generateHtmlIndex (pdfPaths : List String) : String :=
  htmlPartA ++ htmlTitle ++ htmlPartB ++ htmlTitle ++ htmlPartC ++
    listItemsOf pdfPaths ++ htmlPartD

/-! ## The entry point -/

/-- External conditions one run of `main` can encounter. The pure
computations (walk, tokenize, sort, render) are embedded directly; the
fallible I/O steps are driven by fault flags. -/
structure World where
  /-- `fs.promises.stat(docsDir)` resolves (an entry named `docs` exists,
  of any type). -/
  statSucceeds : Bool
  /-- That entry is a directory, so `readdir` on it succeeds. -/
  isDirectory : Bool
  /-- Children of the docs directory when it is one. -/
  entries : List FsEntry
  /-- Some `readdir` inside the walk rejects (permissions, I/O error). -/
  readFails : Bool
  /-- The final `writeFile` rejects. -/
  writeFails : Bool

/-- Observable outcome of one run. -/
structure Outcome where
  exitCode : Nat
  /-- The missing-docs message was printed to standard error. -/
  errMissingRoot : Bool
  /-- The catch-all `Failed:` message was printed to standard error. -/
  errFailed : Bool
  /-- Count printed in the standard-output summary, when reached. -/
  outSummary : Option Nat
  /-- A `readdir` on the docs path was issued (traversal began). -/
  walkAttempted : Bool
  /-- Content written to `docs/index.html`, when the write happened. -/
  written : Option String
deriving DecidableEq, Repr

/-- The full pipeline on the walked paths: tokenize, sort, render. -/
def pipelineHtml (entries : List FsEntry) : String :=
  generateHtmlIndex
    ((sortRecords ((walkForPdfs docsDir entries).map mkRec)).map FileRecord.name)

/-- The `main` async IIFE: existence check with early exit, then walk,
sort and write inside the single top-level try/catch. -/
def runMain (w : World) : Outcome :=
  if w.statSucceeds = false then
    { exitCode := 1, errMissingRoot := true, errFailed := false,
      outSummary := none, walkAttempted := false, written := none }
  else if w.isDirectory = false then
    { exitCode := 1, errMissingRoot := false, errFailed := true,
      outSummary := none, walkAttempted := true, written := none }
  else if w.readFails = true then
    { exitCode := 1, errMissingRoot := false, errFailed := true,
      outSummary := none, walkAttempted := true, written := none }
  else if w.writeFails = true then
    { exitCode := 1, errMissingRoot := false, errFailed := true,
      outSummary := none, walkAttempted := true, written := none }
  else
    { exitCode := 0, errMissingRoot := false, errFailed := false,
      outSummary := some (walkForPdfs docsDir w.entries).length,
      walkAttempted := true,
      written := some (pipelineHtml w.entries) }

/-! ## Claim-side definitions -/

/-- Three-way result of a plain text comparison under the lexical order,
as the specification describes token comparison. -/
def textCmp (a b : String) : Int :=
  if jsStrLt a b then -1 else if a = b then 0 else 1

/-- Canonical form of one regex run: digit runs by numeric value (so
leading zeros are erased), other runs verbatim. -/
def canonRun (r : List Char) : Sum Nat (List Char) :=
  if r ≠ [] ∧ r.all Char.isDigit then .inl (digitsVal r) else .inr r

/-- Two base names differ only in leading zeros inside digit runs: their
run decompositions agree after erasing leading zeros of digit runs. -/
def lzEquiv (s t : String) : Prop :=
  (runsOf s.data).map canonRun = (runsOf t.data).map canonRun

instance (s t : String) : Decidable (lzEquiv s t) :=
  inferInstanceAs (Decidable (_ = _))

/-! ## Helper lemmas -/

theorem natCmp_self (l : List Tok) : natCmp l l = 0 := by
  induction l with
  | nil => rfl
  | cons x xs ih => simp [natCmp, ih]

theorem natCmp_append (l m : List Tok) (h : m ≠ []) :
    natCmp l (l ++ m) = -1 ∧ natCmp (l ++ m) l = 1 := by
  induction l with
  | nil =>
    match m, h with
    | a :: as, _ => exact ⟨rfl, rfl⟩
  | cons x xs ih => simpa [natCmp] using ih

theorem lexLt_asymm : ∀ {a b : List Char}, lexLt a b = true → lexLt b a = false
  | [], [], h => by simp [lexLt] at h
  | [], _ :: _, _ => by simp [lexLt]
  | _ :: _, [], h => by simp [lexLt] at h
  | c :: cs, d :: ds, h => by
    unfold lexLt at h ⊢
    by_cases h1 : c.toNat < d.toNat
    · have h2 : ¬ d.toNat < c.toNat := by omega
      simp [h1, h2]
    · by_cases h2 : d.toNat < c.toNat
      · simp [h1, h2] at h
      · simp only [if_neg h1, if_neg h2] at h
        simp only [if_neg h2, if_neg h1]
        exact lexLt_asymm h

theorem jsNumSub_not_both_neg {x y : Tok} (hxy : x ≠ y)
    (h : jsNumSub x y < 0) : 0 ≤ jsNumSub y x := by
  cases x <;> cases y <;> simp_all [jsNumSub] <;> omega

/-- The comparator can be positive in both directions (mixed number/text
positions), but never negative in both: a decided swap one way is never
also decided the other way. This is the property that keeps every output
of the engine sort adjacent-nondescending. -/
theorem natCmp_not_both_neg : ∀ {s t : List Tok}, natCmp s t < 0 → 0 ≤ natCmp t s
  | [], [], h => by simp [natCmp] at h
  | [], _ :: _, _ => by simp [natCmp]
  | _ :: _, [], h => by simp [natCmp] at h
  | x :: xs, y :: ys, h => by
    unfold natCmp at h ⊢
    by_cases hxy : x = y
    · subst hxy
      by_cases hnum : (x.isNumber && x.isNumber) = true <;>
        simp only [hnum, ne_eq, not_true_eq_false, if_false, ite_self,
          if_true] at h ⊢ <;>
        exact natCmp_not_both_neg h
    · have hyx : y ≠ x := fun hh => hxy hh.symm
      by_cases hnum : (x.isNumber && y.isNumber) = true
      · have hnum2 : (y.isNumber && x.isNumber) = true := by
          rw [Bool.and_comm] at hnum; exact hnum
        rw [if_pos hnum, if_pos hxy] at h
        rw [if_pos hnum2, if_pos hyx]
        exact jsNumSub_not_both_neg hxy h
      · have hnum2 : ¬ (y.isNumber && x.isNumber) = true := by
          rw [Bool.and_comm] at hnum; exact hnum
        rw [if_neg hnum, if_pos hxy] at h
        rw [if_neg hnum2, if_pos hyx]
        by_cases hlt : jsLtTok x y = true
        · rw [if_pos hlt] at h
          have hf : jsLtTok y x = false := by
            cases x <;> cases y <;> simp_all [jsLtTok, jsStrLt]
            exact lexLt_asymm hlt
          rw [hf]
          simp
        · rw [if_neg hlt] at h
          omega

theorem recCmp_not_both_neg {a b : FileRecord} (h : recCmp a b < 0) :
    0 ≤ recCmp b a :=
  natCmp_not_both_neg h

theorem ascRun_chain : ∀ (l : List FileRecord) (prev : FileRecord),
    List.Chain' ascPair (ascRun prev l).1 ∧
      (ascRun prev l).1.head? = some prev
  | [], prev => by simp [ascRun]
  | x :: rest, prev => by
    unfold ascRun
    by_cases h : 0 ≤ recCmp x prev
    · rw [if_pos h]
      have ih := ascRun_chain rest x
      refine ⟨?_, rfl⟩
      show List.Chain' ascPair (prev :: (ascRun x rest).1)
      cases hh : (ascRun x rest).1 with
      | nil => simp
      | cons z zs =>
        rw [hh] at ih
        have hz : z = x := by simpa using ih.2
        subst hz
        refine List.chain'_cons.mpr ⟨?_, ih.1⟩
        exact h
    · rw [if_neg h]
      simp

theorem descRun_chain : ∀ (l : List FileRecord) (prev : FileRecord),
    List.Chain' descPair (descRun prev l).1 ∧
      (descRun prev l).1.head? = some prev
  | [], prev => by simp [descRun]
  | x :: rest, prev => by
    unfold descRun
    by_cases h : recCmp x prev < 0
    · rw [if_pos h]
      have ih := descRun_chain rest x
      refine ⟨?_, rfl⟩
      show List.Chain' descPair (prev :: (descRun x rest).1)
      cases hh : (descRun x rest).1 with
      | nil => simp
      | cons z zs =>
        rw [hh] at ih
        have hz : z = x := by simpa using ih.2
        subst hz
        refine List.chain'_cons.mpr ⟨?_, ih.1⟩
        exact h
    · rw [if_neg h]
      simp

theorem ascRun_of_chain : ∀ (l : List FileRecord) (prev : FileRecord),
    List.Chain' ascPair (prev :: l) → ascRun prev l = (prev :: l, [])
  | [], prev, _ => rfl
  | x :: rest, prev, h => by
    have h1 : ascPair prev x := (List.chain'_cons.mp h).1
    have h2 := (List.chain'_cons.mp h).2
    unfold ascRun
    rw [if_pos (show 0 ≤ recCmp x prev from h1), ascRun_of_chain rest x h2]

/-- Boundary conditions of the binary search: the result sits between the
bounds, the element before it (when any) compares nondescending against
the pivot, and the element at it (when any) compares above the pivot. -/
theorem bisectFuel_spec (pivot : FileRecord) (acc : List FileRecord) :
    ∀ fuel left right, right - left ≤ fuel → left ≤ right →
      right ≤ acc.length →
      (left = 0 ∨ 0 ≤ recCmp pivot (acc.getD (left - 1) dfltRec)) →
      (right = acc.length ∨ recCmp pivot (acc.getD right dfltRec) < 0) →
      (left ≤ bisectFuel pivot acc fuel left right ∧
        bisectFuel pivot acc fuel left right ≤ right) ∧
      (bisectFuel pivot acc fuel left right = 0 ∨
        0 ≤ recCmp pivot
          (acc.getD (bisectFuel pivot acc fuel left right - 1) dfltRec)) ∧
      (bisectFuel pivot acc fuel left right = acc.length ∨
        recCmp pivot
          (acc.getD (bisectFuel pivot acc fuel left right) dfltRec) < 0)
  | 0, left, right, hf, hlr, hrlen, hL, hR => by
    have hle : left = right := by omega
    exact ⟨⟨le_refl _, hlr⟩, hL, hle ▸ hR⟩
  | fuel + 1, left, right, hf, hlr, hrlen, hL, hR => by
    simp only [bisectFuel]
    by_cases h : left < right
    · rw [if_pos h]
      by_cases hc : recCmp pivot (acc.getD ((left + right) / 2) dfltRec) < 0
      · rw [if_pos hc]
        have hrec := bisectFuel_spec pivot acc fuel left ((left + right) / 2)
          (by omega) (by omega) (by omega) hL (Or.inr hc)
        exact ⟨⟨hrec.1.1, by omega⟩, hrec.2.1, hrec.2.2⟩
      · rw [if_neg hc]
        have hrec := bisectFuel_spec pivot acc fuel ((left + right) / 2 + 1)
          right (by omega) (by omega) hrlen
          (Or.inr (by simpa using Int.not_lt.mp hc)) hR
        exact ⟨⟨by omega, hrec.1.2⟩, hrec.2.1, hrec.2.2⟩
    · rw [if_neg h]
      have hle : left = right := by omega
      exact ⟨⟨le_refl _, hlr⟩, hL, hle ▸ hR⟩

theorem bisect_spec (pivot : FileRecord) (acc : List FileRecord)
    (left right : Nat) (hlr : left ≤ right) (hrlen : right ≤ acc.length)
    (hL : left = 0 ∨ 0 ≤ recCmp pivot (acc.getD (left - 1) dfltRec))
    (hR : right = acc.length ∨ recCmp pivot (acc.getD right dfltRec) < 0) :
    (left ≤ bisect pivot acc left right ∧
      bisect pivot acc left right ≤ right) ∧
    (bisect pivot acc left right = 0 ∨
      0 ≤ recCmp pivot (acc.getD (bisect pivot acc left right - 1) dfltRec)) ∧
    (bisect pivot acc left right = acc.length ∨
      recCmp pivot (acc.getD (bisect pivot acc left right) dfltRec) < 0) :=
  bisectFuel_spec pivot acc (right - left) left right (le_refl _) hlr hrlen hL hR

theorem insertAt_chain :
    ∀ (acc : List FileRecord) (p : Nat) (pivot : FileRecord),
      List.Chain' ascPair acc → p ≤ acc.length →
      (p = 0 ∨ 0 ≤ recCmp pivot (acc.getD (p - 1) dfltRec)) →
      (p = acc.length ∨ recCmp pivot (acc.getD p dfltRec) < 0) →
      List.Chain' ascPair (insertAt p pivot acc)
  | [], p, pivot, _, hp, _, _ => by
    have hp0 : p = 0 := Nat.le_zero.mp hp
    subst hp0
    simp [insertAt]
  | y :: ys, 0, pivot, hch, _, _, hR => by
    show List.Chain' ascPair (pivot :: y :: ys)
    have h0 : recCmp pivot y < 0 := by
      rcases hR with h | h
      · exact absurd h.symm (by simp)
      · exact h
    exact List.chain'_cons.mpr ⟨recCmp_not_both_neg h0, hch⟩
  | y :: ys, q + 1, pivot, hch, hp, hL, hR => by
    show List.Chain' ascPair (y :: insertAt q pivot ys)
    have hch2 : List.Chain' ascPair ys := (List.chain'_cons'.mp hch).2
    have hp2 : q ≤ ys.length := by
      simp only [List.length_cons] at hp
      omega
    have hL2 : q = 0 ∨ 0 ≤ recCmp pivot (ys.getD (q - 1) dfltRec) := by
      cases q with
      | zero => exact Or.inl rfl
      | succ r =>
        rcases hL with h | h
        · exact absurd h (Nat.succ_ne_zero _)
        · exact Or.inr h
    have hR2 : q = ys.length ∨ recCmp pivot (ys.getD q dfltRec) < 0 := by
      rcases hR with h | h
      · simp only [List.length_cons] at h
        exact Or.inl (by omega)
      · exact Or.inr h
    refine List.chain'_cons'.mpr
      ⟨?_, insertAt_chain ys q pivot hch2 hp2 hL2 hR2⟩
    intro b hb
    cases q with
    | zero =>
      have hbp : b = pivot := by
        simp [insertAt] at hb
        exact hb.symm
      subst hbp
      rcases hL with h | h
      · exact absurd h (Nat.succ_ne_zero _)
      · exact h
    | succ r =>
      cases ys with
      | nil => exact absurd hp2 (by simp)
      | cons z zs =>
        have hbz : b = z := by
          simp [insertAt] at hb
          exact hb.symm
        subst hbz
        exact (List.chain'_cons'.mp hch).1 b rfl

theorem binInsertLoop_chain :
    ∀ (rest acc : List FileRecord), List.Chain' ascPair acc →
      List.Chain' ascPair (binInsertLoop acc rest)
  | [], _, h => h
  | x :: rest, acc, h => by
    show List.Chain' ascPair
      (binInsertLoop (insertAt (bisect x acc 0 acc.length) x acc) rest)
    refine binInsertLoop_chain rest _ ?_
    have hs := bisect_spec x acc 0 acc.length (Nat.zero_le _) (le_refl _)
      (Or.inl rfl) (Or.inl rfl)
    exact insertAt_chain acc _ x h hs.1.2 hs.2.1 hs.2.2

/-- Every output of the engine sort is adjacent-nondescending: the run
construction and every binary-insertion placement establish the relation
at each new adjacency — directly, or via `natCmp_not_both_neg` when the
probe decided the opposite strict comparison. -/
theorem jsSort_chain : ∀ l : List FileRecord, List.Chain' ascPair (jsSort l)
  | [] => List.chain'_nil
  | [x] => by simp [jsSort]
  | a0 :: a1 :: rest => by
    simp only [jsSort]
    by_cases h : recCmp a1 a0 < 0
    · rw [if_pos h]
      show List.Chain' ascPair
        (binInsertLoop (a0 :: (descRun a1 rest).1).reverse (descRun a1 rest).2)
      refine binInsertLoop_chain _ _ ?_
      rw [List.chain'_reverse]
      have hd := descRun_chain rest a1
      have hchain : List.Chain' descPair (a0 :: (descRun a1 rest).1) := by
        cases hh : (descRun a1 rest).1 with
        | nil => simp
        | cons z zs =>
          rw [hh] at hd
          have hz : z = a1 := by simpa using hd.2
          subst hz
          refine List.chain'_cons.mpr ⟨?_, hd.1⟩
          exact h
      refine hchain.imp ?_
      intro u v hv
      exact recCmp_not_both_neg hv
    · rw [if_neg h]
      show List.Chain' ascPair
        (binInsertLoop (a0 :: (ascRun a1 rest).1) (ascRun a1 rest).2)
      refine binInsertLoop_chain _ _ ?_
      have ha := ascRun_chain rest a1
      cases hh : (ascRun a1 rest).1 with
      | nil => simp
      | cons z zs =>
        rw [hh] at ha
        have hz : z = a1 := by simpa using ha.2
        subst hz
        refine List.chain'_cons.mpr ⟨?_, ha.1⟩
        exact Int.not_lt.mp h

/-- An adjacent-nondescending sequence is a fixed point of the engine
sort: run detection reads it as one ascending run covering everything. -/
theorem jsSort_of_chain : ∀ l : List FileRecord,
    List.Chain' ascPair l → jsSort l = l
  | [], _ => rfl
  | [_], _ => rfl
  | a0 :: a1 :: rest, h => by
    have h1 : ascPair a0 a1 := (List.chain'_cons.mp h).1
    have h2 := (List.chain'_cons.mp h).2
    simp only [jsSort]
    rw [if_neg (Int.not_lt.mpr h1), ascRun_of_chain rest a1 h2]
    rfl

theorem subseqChk_correct :
    ∀ (l2 l1 : List FileRecord), subseqChk l1 l2 = true ↔ List.Sublist l1 l2
  | _, [] => by
    constructor
    · intro _
      exact List.nil_sublist _
    · intro _
      simp [subseqChk]
  | [], _ :: _ => by
    constructor
    · intro h
      exact absurd h (by simp [subseqChk])
    · intro h
      exact absurd h (by simp)
  | b :: l2, a :: l1 => by
    constructor
    · intro h
      by_cases hab : a = b
      · subst hab
        rw [subseqChk, if_pos rfl] at h
        exact ((subseqChk_correct l2 l1).mp h).cons₂ a
      · rw [subseqChk, if_neg hab] at h
        exact ((subseqChk_correct l2 (a :: l1)).mp h).cons b
    · intro h
      by_cases hab : a = b
      · subst hab
        rw [subseqChk, if_pos rfl]
        cases h with
        | cons _ h2 =>
          exact (subseqChk_correct l2 l1).mpr
            ((List.sublist_cons_self a l1).trans h2)
        | cons₂ _ h2 => exact (subseqChk_correct l2 l1).mpr h2
      · rw [subseqChk, if_neg hab]
        cases h with
        | cons _ h2 => exact (subseqChk_correct l2 (a :: l1)).mpr h2
        | cons₂ _ h2 => exact absurd rfl hab

/-- On the comparator-consistent concrete inputs used by the claims
below, the engine model and the stable-sort model agree. -/
theorem jsSort_sortRecords_agree :
    jsSort [mkRec "a1.pdf", mkRec "a2.pdf", mkRec "a10.pdf"] =
      sortRecords [mkRec "a1.pdf", mkRec "a2.pdf", mkRec "a10.pdf"] ∧
    jsSort [mkRec "a10.pdf", mkRec "a2.pdf", mkRec "a1.pdf"] =
      sortRecords [mkRec "a10.pdf", mkRec "a2.pdf", mkRec "a1.pdf"] ∧
    jsSort ((walkForPdfs docsDir
        [FsEntry.file "02.pdf", FsEntry.file "01.pdf",
         FsEntry.file "10.pdf"]).map mkRec) =
      sortRecords ((walkForPdfs docsDir
        [FsEntry.file "02.pdf", FsEntry.file "01.pdf",
         FsEntry.file "10.pdf"]).map mkRec) := by
  decide

theorem sublist_orderedInsertCmp (a : FileRecord) :
    ∀ (acc c : List FileRecord), List.Sublist c acc →
      List.Sublist c (orderedInsertCmp a acc)
  | [], c, h => by
    rw [List.sublist_nil.mp h]
    exact List.nil_sublist _
  | y :: rest, c, h => by
    unfold orderedInsertCmp
    by_cases hy : recCmp a y ≤ 0
    · rw [if_pos hy]
      exact h.cons a
    · rw [if_neg hy]
      cases h with
      | cons _ h2 => exact (sublist_orderedInsertCmp a rest c h2).cons y
      | cons₂ _ h2 => exact (sublist_orderedInsertCmp a rest _ h2).cons₂ y

theorem mem_orderedInsertCmp (a b : FileRecord) :
    ∀ acc, b ∈ acc → b ∈ orderedInsertCmp a acc
  | y :: rest, hb => by
    unfold orderedInsertCmp
    by_cases hy : recCmp a y ≤ 0
    · rw [if_pos hy]
      exact List.mem_cons_of_mem a hb
    · rw [if_neg hy]
      rcases List.mem_cons.mp hb with rfl | hb2
      · exact List.mem_cons_self b _
      · exact List.mem_cons_of_mem y (mem_orderedInsertCmp a b rest hb2)

theorem self_mem_orderedInsertCmp (a : FileRecord) :
    ∀ acc, a ∈ orderedInsertCmp a acc
  | [] => List.mem_singleton.mpr rfl
  | y :: rest => by
    unfold orderedInsertCmp
    by_cases hy : recCmp a y ≤ 0
    · rw [if_pos hy]; exact List.mem_cons_self a _
    · rw [if_neg hy]
      exact List.mem_cons_of_mem y (self_mem_orderedInsertCmp a rest)

theorem mem_sortRecords (b : FileRecord) : ∀ l, b ∈ l → b ∈ sortRecords l
  | x :: xs, h => by
    show b ∈ orderedInsertCmp x (sortRecords xs)
    rcases List.mem_cons.mp h with rfl | h2
    · exact self_mem_orderedInsertCmp b _
    · exact mem_orderedInsertCmp x b (sortRecords xs) (mem_sortRecords b xs h2)

theorem pair_orderedInsertCmp (a b : FileRecord) (hab : recCmp a b ≤ 0) :
    ∀ acc, b ∈ acc → List.Sublist [a, b] (orderedInsertCmp a acc)
  | y :: rest, hb => by
    unfold orderedInsertCmp
    by_cases hy : recCmp a y ≤ 0
    · rw [if_pos hy]
      exact (List.singleton_sublist.mpr hb).cons₂ a
    · rw [if_neg hy]
      rcases List.mem_cons.mp hb with rfl | hb2
      · exact absurd hab hy
      · exact (pair_orderedInsertCmp a b hab rest hb2).cons y

/-- Stability of the modelled sort for a pair in order: if `r` precedes
`s` in the input and the comparator does not require swapping them
(`recCmp r s ≤ 0`), then `r` still precedes `s` in the output, whatever
the rest of the list does. -/
theorem sortRecords_stable_pair (r s : FileRecord) (hrs : recCmp r s ≤ 0) :
    ∀ l, List.Sublist [r, s] l → List.Sublist [r, s] (sortRecords l)
  | [], h => by simp at h
  | x :: xs, h => by
    show List.Sublist [r, s] (orderedInsertCmp x (sortRecords xs))
    cases h with
    | cons _ h2 =>
      exact sublist_orderedInsertCmp x (sortRecords xs) _
        (sortRecords_stable_pair r s hrs xs h2)
    | cons₂ _ h2 =>
      exact pair_orderedInsertCmp r s hrs (sortRecords xs)
        (mem_sortRecords s xs (List.singleton_sublist.mp h2))

mutual

theorem walkForPdfs_eq_filter :
    ∀ (dir : String) (es : List FsEntry),
      walkForPdfs dir es =
        ((allEntries dir es).filter fun q => keptCond q.2).map Prod.fst
  | _, [] => rfl
  | dir, e :: rest => by
    simp only [walkForPdfs, allEntries, List.filter_append, List.map_append]
    rw [walkEntry_eq_filter dir e, walkForPdfs_eq_filter dir rest]

theorem walkEntry_eq_filter :
    ∀ (dir : String) (e : FsEntry),
      walkEntry dir e =
        ((entryWithSub dir e).filter fun q => keptCond q.2).map Prod.fst
  | dir, .dir n cs => by
    simp only [walkEntry, entryWithSub, keptCond, FsEntry.isDirectory,
      Bool.not_true, Bool.false_and, List.filter_cons_of_neg, Bool.false_eq_true,
      not_false_iff]
    exact walkForPdfs_eq_filter (dir ++ "/" ++ n) cs
  | dir, .file n => by
    by_cases h : srcCond (FsEntry.file n) = true <;>
      simp [walkEntry, entryWithSub, keptCond, List.filter_cons,
        FsEntry.isDirectory, h]
  | dir, .other n => by
    by_cases h : srcCond (FsEntry.other n) = true <;>
      simp [walkEntry, entryWithSub, keptCond, List.filter_cons,
        FsEntry.isDirectory, h]

end

theorem canonRun_digit {r : List Char} (h : r ≠ [] ∧ r.all Char.isDigit) :
    canonRun r = .inl (digitsVal r) := by
  unfold canonRun
  rw [if_pos h]

theorem canonRun_nondigit {r : List Char}
    (h : ¬(r ≠ [] ∧ r.all Char.isDigit)) : canonRun r = .inr r := by
  unfold canonRun
  rw [if_neg h]

theorem jsMapToken_digit {r : List Char} (h : r ≠ [] ∧ r.all Char.isDigit) :
    jsMapToken (String.mk r) = Tok.fin (digitsVal r) := by
  unfold jsMapToken jsStrToNumber
  rw [if_pos (show (String.mk r).data ≠ [] ∧
        (String.mk r).data.all Char.isDigit from h)]

theorem jsMapToken_eq_of_canon {r1 r2 : List Char}
    (h : canonRun r1 = canonRun r2) :
    jsMapToken (String.mk r1) = jsMapToken (String.mk r2) := by
  by_cases h1 : r1 ≠ [] ∧ r1.all Char.isDigit <;>
    by_cases h2 : r2 ≠ [] ∧ r2.all Char.isDigit
  · rw [canonRun_digit h1, canonRun_digit h2] at h
    rw [jsMapToken_digit h1, jsMapToken_digit h2, Sum.inl.inj h]
  · rw [canonRun_digit h1, canonRun_nondigit h2] at h
    exact absurd h (by simp)
  · rw [canonRun_nondigit h1, canonRun_digit h2] at h
    exact absurd h (by simp)
  · rw [canonRun_nondigit h1, canonRun_nondigit h2] at h
    rw [Sum.inr.inj h]

theorem tokensRuns_eq :
    ∀ (rs ts : List (List Char)),
      rs.map canonRun = ts.map canonRun →
      rs.map (fun r => jsMapToken (String.mk r)) =
        ts.map (fun r => jsMapToken (String.mk r))
  | [], [], _ => rfl
  | [], _ :: _, h => by simp at h
  | _ :: _, [], h => by simp at h
  | r :: rs, t :: ts, h => by
    simp only [List.map_cons, List.cons.injEq] at h ⊢
    exact ⟨jsMapToken_eq_of_canon h.1, tokensRuns_eq rs ts h.2⟩

/-! ## Claims -/

/-- C1, counterexample: the claim includes in the result set every
directory entry whose name ends with `jpg`, directories themselves
included. For the docs tree containing a single empty directory named
`ajpg`, the claimed set contains its path but the walker returns the empty
list: directories always take the recursion branch and are never pushed. -/
theorem c1_walker_counterexample :
    ¬ (∀ p : String,
        p ∈ walkForPdfs docsDir [FsEntry.dir "ajpg" []] ↔
          p ∈ ((allEntries docsDir [FsEntry.dir "ajpg" []]).filter
                (fun q => srcCond q.2)).map Prod.fst) := fun h =>
  absurd ((h "/cwd/docs/ajpg").mpr (by decide)) (by decide)

/-- C1 (amended): the walker result set equals the set of non-directory
entries anywhere under the root that either are regular files whose name
ends with `.pdf`, or have a name ending with the literal substring `jpg`
regardless of regular-file status; directory entries themselves are never
included, only recursed into. -/
theorem c1_walker_amended (dir : String) (es : List FsEntry) (p : String) :
    p ∈ walkForPdfs dir es ↔
      p ∈ ((allEntries dir es).filter
            (fun q => !q.2.isDirectory && srcCond q.2)).map Prod.fst := by
  rw [walkForPdfs_eq_filter]
  rfl

/-- C2, counterexample: at a position holding the number 5 against the
lowercased text a, the three-way text comparison of `5` and `a` is -1,
but the comparator returns 1; it also returns 1 with the arguments
swapped, so it cannot be the three-way result of any text comparison. -/
theorem c2_comparator_counterexample :
    textCmp "5" "a" = -1 ∧
    natCmp [Tok.fin 5] [Tok.str "a"] = 1 ∧
    natCmp [Tok.str "a"] [Tok.fin 5] = 1 := by decide

/-- C2 (amended): at the first position where the tokens are not both
numbers, the comparator compares them as text only when both are strings
(returning the three-way lexical result, recursing on equality); when
exactly one token is a number, the JS relational test against a
NaN-coercing string is false and the comparator returns 1 regardless of
argument order. -/
theorem c2_comparator_amended (x y : Tok) (xs ys : List Tok)
    (h : ¬(x.isNumber = true ∧ y.isNumber = true)) :
    natCmp (x :: xs) (y :: ys) =
      (match x, y with
       | .str a, .str b => if a = b then natCmp xs ys else textCmp a b
       | _, _ => (1 : Int)) := by
  cases x with
  | fin n =>
    cases y with
    | fin m => exact absurd ⟨rfl, rfl⟩ h
    | posInf => exact absurd ⟨rfl, rfl⟩ h
    | negInf => exact absurd ⟨rfl, rfl⟩ h
    | str b => simp [natCmp, Tok.isNumber, jsLtTok]
  | posInf =>
    cases y with
    | fin m => exact absurd ⟨rfl, rfl⟩ h
    | posInf => exact absurd ⟨rfl, rfl⟩ h
    | negInf => exact absurd ⟨rfl, rfl⟩ h
    | str b => simp [natCmp, Tok.isNumber, jsLtTok]
  | negInf =>
    cases y with
    | fin m => exact absurd ⟨rfl, rfl⟩ h
    | posInf => exact absurd ⟨rfl, rfl⟩ h
    | negInf => exact absurd ⟨rfl, rfl⟩ h
    | str b => simp [natCmp, Tok.isNumber, jsLtTok]
  | str a =>
    cases y with
    | fin m => simp [natCmp, Tok.isNumber, jsLtTok]
    | posInf => simp [natCmp, Tok.isNumber, jsLtTok]
    | negInf => simp [natCmp, Tok.isNumber, jsLtTok]
    | str b =>
      by_cases hab : a = b
      · subst hab
        simp [natCmp, Tok.isNumber]
      · simp [natCmp, Tok.isNumber, hab, jsLtTok, textCmp]

/-- C2 witness: a concrete both-strings instance of the amended claim. -/
theorem c2_comparator_witness : natCmp [Tok.str "a"] [Tok.str "b"] = -1 := by
  have h := c2_comparator_amended (Tok.str "a") (Tok.str "b") [] [] (by decide)
  rw [h]
  decide

/-- C3, counterexample: the comparator is not a total preorder on
FileRecords. For the records of `5.pdf` (first token the number 5) and
`a.pdf` (single text token), the comparator returns 1 in both directions,
so neither record is below the other and totality of `recCmp · · ≤ 0`
fails. -/
theorem c3_comparator_counterexample :
    ¬ (recCmp (mkRec "5.pdf") (mkRec "a.pdf") ≤ 0 ∨
       recCmp (mkRec "a.pdf") (mkRec "5.pdf") ≤ 0) := by decide

/-- C3 (amended): restricted to the records of `a1.pdf`, `a2.pdf`,
`a10.pdf` the comparator is total and transitive (a total preorder), and
from every initial order the sort returns exactly
`a1.pdf, a2.pdf, a10.pdf`, the numeric runs comparing 10 > 2 > 1; on all
FileRecords it is not a total preorder, mixed number/text positions
returning 1 in both directions. -/
theorem c3_comparator_amended :
    (∀ a ∈ [mkRec "a1.pdf", mkRec "a2.pdf", mkRec "a10.pdf"],
      ∀ b ∈ [mkRec "a1.pdf", mkRec "a2.pdf", mkRec "a10.pdf"],
        recCmp a b ≤ 0 ∨ recCmp b a ≤ 0) ∧
    (∀ a ∈ [mkRec "a1.pdf", mkRec "a2.pdf", mkRec "a10.pdf"],
      ∀ b ∈ [mkRec "a1.pdf", mkRec "a2.pdf", mkRec "a10.pdf"],
        ∀ c ∈ [mkRec "a1.pdf", mkRec "a2.pdf", mkRec "a10.pdf"],
          recCmp a b ≤ 0 → recCmp b c ≤ 0 → recCmp a c ≤ 0) ∧
    (sortRecords [mkRec "a1.pdf", mkRec "a2.pdf", mkRec "a10.pdf"] =
        [mkRec "a1.pdf", mkRec "a2.pdf", mkRec "a10.pdf"] ∧
     sortRecords [mkRec "a1.pdf", mkRec "a10.pdf", mkRec "a2.pdf"] =
        [mkRec "a1.pdf", mkRec "a2.pdf", mkRec "a10.pdf"] ∧
     sortRecords [mkRec "a2.pdf", mkRec "a1.pdf", mkRec "a10.pdf"] =
        [mkRec "a1.pdf", mkRec "a2.pdf", mkRec "a10.pdf"] ∧
     sortRecords [mkRec "a2.pdf", mkRec "a10.pdf", mkRec "a1.pdf"] =
        [mkRec "a1.pdf", mkRec "a2.pdf", mkRec "a10.pdf"] ∧
     sortRecords [mkRec "a10.pdf", mkRec "a1.pdf", mkRec "a2.pdf"] =
        [mkRec "a1.pdf", mkRec "a2.pdf", mkRec "a10.pdf"] ∧
     sortRecords [mkRec "a10.pdf", mkRec "a2.pdf", mkRec "a1.pdf"] =
        [mkRec "a1.pdf", mkRec "a2.pdf", mkRec "a10.pdf"]) := by decide

/-- C4: on FileRecords, equal token sequences compare 0; when one token
sequence is a strict prefix of the other (the empty sequence against a
nonempty one included) the shorter record compares -1 and the longer 1;
two records with empty token sequences compare 0. -/
theorem c4_comparator_prefix_equal (a b : FileRecord) :
    (a.tokens = b.tokens → recCmp a b = 0) ∧
    (∀ m : List Tok, m ≠ [] → b.tokens = a.tokens ++ m →
        recCmp a b = -1 ∧ recCmp b a = 1) ∧
    (a.tokens = [] → b.tokens = [] → recCmp a b = 0) := by
  refine ⟨fun h => ?_, fun m hm hb => ?_, fun ha hb => ?_⟩
  · unfold recCmp
    rw [h]
    exact natCmp_self _
  · unfold recCmp
    rw [hb]
    exact natCmp_append _ _ hm
  · unfold recCmp
    rw [ha, hb]
    rfl

/-- C4 witness: concrete equal-token, strict-prefix and empty-empty
instances. -/
theorem c4_comparator_witness :
    recCmp (mkRec "a.pdf") (mkRec "a.pdf") = 0 ∧
    (recCmp { name := "a", tokens := [Tok.str "a"] }
            { name := "a1", tokens := [Tok.str "a", Tok.fin 1] } = -1 ∧
     recCmp { name := "a1", tokens := [Tok.str "a", Tok.fin 1] }
            { name := "a", tokens := [Tok.str "a"] } = 1) ∧
    recCmp { name := "", tokens := [] } { name := "", tokens := [] } = 0 :=
  ⟨(c4_comparator_prefix_equal _ _).1 rfl,
   (c4_comparator_prefix_equal _ _).2.1 [Tok.fin 1] (by decide) rfl,
   (c4_comparator_prefix_equal _ _).2.2 rfl rfl⟩

/-- C5: sorting with the natural-sort comparator is idempotent — the
engine sort (run detection plus binary insertion) always outputs an
adjacent-nondescending sequence, because the comparator is never negative
in both directions, and a second sort reads such a sequence as one
ascending run and returns it unchanged. This holds even on sequences
mixing number-first and text-first records, where the comparator is
inconsistent: the engine leaves them in place rather than swapping them
back and forth. -/
theorem c5_sort_idempotent (l : List FileRecord) :
    jsSort (jsSort l) = jsSort l :=
  jsSort_of_chain _ (jsSort_chain l)

/-- C6: when no entry named `docs` exists under the working directory
(the stat rejects), the run prints the missing-root message to standard
error, exits with status 1, never starts the traversal, prints no summary
and writes no output file. -/
theorem c6_missing_root (w : World) (h : w.statSucceeds = false) :
    (runMain w).exitCode = 1 ∧ (runMain w).errMissingRoot = true ∧
    (runMain w).walkAttempted = false ∧ (runMain w).written = none ∧
    (runMain w).outSummary = none := by
  simp [runMain, h]

/-- C6 witness: a concrete world without a docs entry. -/
theorem c6_missing_root_witness :
    (runMain { statSucceeds := false, isDirectory := false, entries := [],
               readFails := false, writeFails := false }).exitCode = 1 ∧
    (runMain { statSucceeds := false, isDirectory := false, entries := [],
               readFails := false, writeFails := false }).errMissingRoot = true ∧
    (runMain { statSucceeds := false, isDirectory := false, entries := [],
               readFails := false, writeFails := false }).walkAttempted = false ∧
    (runMain { statSucceeds := false, isDirectory := false, entries := [],
               readFails := false, writeFails := false }).written = none ∧
    (runMain { statSucceeds := false, isDirectory := false, entries := [],
               readFails := false, writeFails := false }).outSummary = none :=
  c6_missing_root _ rfl

/-- C7: with the docs entry present, every failure of the walk (a
non-directory docs entry or a rejected readdir) or of the final write
reaches the single top-level catch, prints the failure message to
standard error and exits 1; with no failure, the run prints the count of
discovered files to standard output, writes the index and exits 0. -/
theorem c7_top_level (w : World) (h : w.statSucceeds = true) :
    ((w.isDirectory = false ∨ w.readFails = true ∨ w.writeFails = true) →
      (runMain w).exitCode = 1 ∧ (runMain w).errFailed = true ∧
      (runMain w).errMissingRoot = false ∧ (runMain w).outSummary = none ∧
      (runMain w).written = none) ∧
    (w.isDirectory = true → w.readFails = false → w.writeFails = false →
      (runMain w).exitCode = 0 ∧ (runMain w).errFailed = false ∧
      (runMain w).errMissingRoot = false ∧
      (runMain w).outSummary = some (walkForPdfs docsDir w.entries).length ∧
      (runMain w).written = some (pipelineHtml w.entries)) := by
  constructor
  · intro hcase
    cases hd : w.isDirectory <;> cases hr : w.readFails <;>
      cases hw : w.writeFails <;> simp_all [runMain]
  · intro hd hr hw
    simp [runMain, h, hd, hr, hw]

/-- C7 witness: a failing world (write rejects) and a succeeding world,
both with the docs directory present. -/
theorem c7_top_level_witness :
    (runMain { statSucceeds := true, isDirectory := true, entries := [],
               readFails := false, writeFails := true }).exitCode = 1 ∧
    (runMain { statSucceeds := true, isDirectory := true,
               entries := [FsEntry.file "a.pdf"],
               readFails := false, writeFails := false }).exitCode = 0 ∧
    (runMain { statSucceeds := true, isDirectory := true,
               entries := [FsEntry.file "a.pdf"],
               readFails := false, writeFails := false }).outSummary = some 1 :=
  have h1 := (c7_top_level
    { statSucceeds := true, isDirectory := true, entries := [],
      readFails := false, writeFails := true } rfl).1 (Or.inr (Or.inr rfl))
  have h2 := (c7_top_level
    { statSucceeds := true, isDirectory := true,
      entries := [FsEntry.file "a.pdf"],
      readFails := false, writeFails := false } rfl).2 rfl rfl rfl
  ⟨h1.1, h2.1, by rw [h2.2.2.2.1]; rfl⟩

/-- C10: when an entry named `docs` exists but is not a directory, the
existence check passes, the missing-root message is not printed, and the
run fails during traversal: the readdir rejection reaches the top-level
catch, the failure message is printed to standard error and the exit
status is 1, with nothing written. -/
theorem c10_docs_not_directory (w : World) (h1 : w.statSucceeds = true)
    (h2 : w.isDirectory = false) :
    (runMain w).errMissingRoot = false ∧ (runMain w).errFailed = true ∧
    (runMain w).walkAttempted = true ∧ (runMain w).exitCode = 1 ∧
    (runMain w).written = none := by
  simp [runMain, h1, h2]

/-- C10 witness: a concrete world whose docs entry is a regular file. -/
theorem c10_docs_not_directory_witness :
    (runMain { statSucceeds := true, isDirectory := false, entries := [],
               readFails := false, writeFails := false }).errMissingRoot = false ∧
    (runMain { statSucceeds := true, isDirectory := false, entries := [],
               readFails := false, writeFails := false }).errFailed = true ∧
    (runMain { statSucceeds := true, isDirectory := false, entries := [],
               readFails := false, writeFails := false }).walkAttempted = true ∧
    (runMain { statSucceeds := true, isDirectory := false, entries := [],
               readFails := false, writeFails := false }).exitCode = 1 ∧
    (runMain { statSucceeds := true, isDirectory := false, entries := [],
               readFails := false, writeFails := false }).written = none :=
  c10_docs_not_directory _ rfl rfl

/-- C8: the generated document renders exactly one list entry per input
path, in the given order, of the form `<li><a href="ENCODED">RELATIVE</a></li>`
with `RELATIVE` the path made relative to the docs directory (separators
joined with forward slashes) and `ENCODED` its `encodeURI` image; and for
a docs directory holding exactly `02.pdf`, `01.pdf`, `10.pdf` the pipeline
emits the three entries in order `01.pdf, 02.pdf, 10.pdf`, each href the
already-safe relative path and each label the relative path. -/
theorem c8_generator :
    (∀ ps : List String,
      generateHtmlIndex ps =
        htmlPartA ++ htmlTitle ++ htmlPartB ++ htmlTitle ++ htmlPartC ++
          String.intercalate "\n"
            (ps.map fun p =>
              " <li><a href=\"" ++ encodeURI (relToDocs p) ++ "\">" ++
                relToDocs p ++ "</a></li>") ++ htmlPartD) ∧
    listItemsOf
        ((sortRecords ((walkForPdfs docsDir
            [FsEntry.file "02.pdf", FsEntry.file "01.pdf",
             FsEntry.file "10.pdf"]).map mkRec)).map FileRecord.name) =
      " <li><a href=\"01.pdf\">01.pdf</a></li>\n <li><a href=\"02.pdf\">02.pdf</a></li>\n <li><a href=\"10.pdf\">10.pdf</a></li>" :=
  ⟨fun _ => rfl, by decide⟩

/-- C9, counterexample: the names `01.pdf` and `1.pdf` differ only in a
leading zero, tokenize identically and compare 0, and the traversal
order `9, e, 5, x, 01, t, c, 1` lists `01.pdf` before `1.pdf`; yet the
engine sort detects the initial run `9, e, 5, x, 01, t` (every adjacent
mixed comparison returns 1), binary-inserts `c.pdf` at index 1 and then
`1.pdf` at index 3 — its probes hit `5.pdf`, `c.pdf` and `e.pdf`, never
`01.pdf` — so the output places `1.pdf` before `01.pdf` and the
traversal order of the pair is not preserved in the generated index. -/
theorem c9_order_counterexample :
    lzEquiv (basename "01.pdf") (basename "1.pdf") ∧
    recCmp (mkRec "01.pdf") (mkRec "1.pdf") = 0 ∧
    List.Sublist [mkRec "01.pdf", mkRec "1.pdf"]
      [mkRec "9.pdf", mkRec "e.pdf", mkRec "5.pdf", mkRec "x.pdf",
       mkRec "01.pdf", mkRec "t.pdf", mkRec "c.pdf", mkRec "1.pdf"] ∧
    jsSort [mkRec "9.pdf", mkRec "e.pdf", mkRec "5.pdf", mkRec "x.pdf",
            mkRec "01.pdf", mkRec "t.pdf", mkRec "c.pdf", mkRec "1.pdf"] =
      [mkRec "9.pdf", mkRec "c.pdf", mkRec "e.pdf", mkRec "1.pdf",
       mkRec "5.pdf", mkRec "x.pdf", mkRec "01.pdf", mkRec "t.pdf"] ∧
    ¬ List.Sublist [mkRec "01.pdf", mkRec "1.pdf"]
        (jsSort [mkRec "9.pdf", mkRec "e.pdf", mkRec "5.pdf", mkRec "x.pdf",
                 mkRec "01.pdf", mkRec "t.pdf", mkRec "c.pdf",
                 mkRec "1.pdf"]) := by
  refine ⟨by decide, by decide, (subseqChk_correct _ _).mp (by decide),
    by decide, ?_⟩
  intro h
  exact absurd ((subseqChk_correct _ _).mpr h) (by decide)

/-- C9 (amended): two path names whose base names differ only in leading
zeros inside digit runs tokenize to the same token sequence and the
comparator returns 0 on their records; their relative order in the
generated index is their directory-traversal order whenever the walked
sequence is already adjacent-nondescending under the comparator — in
particular when the docs directory contains exactly the two files — but
with mixed number/text records interleaved the engine sort can reorder
the equal pair, so traversal order is not preserved in general. -/
theorem c9_leading_zeros_amended (p q : String)
    (h : lzEquiv (basename p) (basename q)) :
    tokenize (basename p) = tokenize (basename q) ∧
    recCmp (mkRec p) (mkRec q) = 0 ∧
    jsSort [mkRec p, mkRec q] = [mkRec p, mkRec q] ∧
    (∀ l : List FileRecord, List.Sublist [mkRec p, mkRec q] l →
      List.Chain' ascPair l →
      List.Sublist [mkRec p, mkRec q] (jsSort l)) := by
  have ht : tokenize (basename p) = tokenize (basename q) :=
    tokensRuns_eq _ _ h
  have hc : recCmp (mkRec p) (mkRec q) = 0 := by
    show natCmp (tokenize (basename p)) (tokenize (basename q)) = 0
    rw [ht]
    exact natCmp_self _
  have hc2 : recCmp (mkRec q) (mkRec p) = 0 := by
    show natCmp (tokenize (basename q)) (tokenize (basename p)) = 0
    rw [← ht]
    exact natCmp_self _
  refine ⟨ht, hc, ?_, ?_⟩
  · have hpair : List.Chain' ascPair [mkRec p, mkRec q] :=
      List.chain'_cons.mpr ⟨le_of_eq hc2.symm, List.chain'_singleton _⟩
    exact jsSort_of_chain _ hpair
  · intro l hsub hchain
    rw [jsSort_of_chain l hchain]
    exact hsub

/-- C9 witness: the pair `01.pdf` and `1.pdf` on its own. -/
theorem c9_leading_zeros_amended_witness :
    tokenize (basename "01.pdf") = tokenize (basename "1.pdf") ∧
    recCmp (mkRec "01.pdf") (mkRec "1.pdf") = 0 ∧
    jsSort [mkRec "01.pdf", mkRec "1.pdf"] =
      [mkRec "01.pdf", mkRec "1.pdf"] :=
  have h := c9_leading_zeros_amended "01.pdf" "1.pdf" (by decide)
  ⟨h.1, h.2.1, h.2.2.1⟩

end MakeIndex
